import Mathlib

/-
Verification model of react-validate-hook.

The embedding follows the source files:
  - src/useValidator.tsx      : the coordinator hook (canValidate flag, errors
    record, subscriber registry, flattenedErrors, validate, reset, onError,
    subscribe, unsubscribe).
  - src/useValidationLogic.ts and its ref-based revision : the per-field
    validation engine (currentValue mirror, canValidate ref, local error,
    the async validate routine, setValue, the external-value sync effect,
    the subscription callback).
  - src/ValidateWrapper.tsx   : the gate on the externally exposed error.

JavaScript asynchrony is modelled with an explicit list of pending
validations: invoking a validator captures its argument at invocation time
(the code reads currentValueRef.current before the await) and creates a
pending task; a scheduler event resolves a pending task, which applies the
validator outcome exactly as the code does after the await. The order of
resolve events is the nondeterministic settlement order of the promises.
-/

/-- Outcome of awaiting a validator call: the literal true, an error string,
or a thrown/rejected exception. -/
inductive VResult where
  | ok : VResult
  | msg : String → VResult
  | thrown : String → VResult
deriving DecidableEq

/-- One mounted field participant: the state kept by useValidationLogic.
fieldValueCalls records every value forwarded to the consumer-supplied
setValue callback (setFieldValue in the source); fnCalls counts validator
invocations. -/
structure Participant where
  pid : String
  fn : Option String → VResult
  currentValue : Option String
  canValidate : Bool
  error : Option String
  fnCalls : Nat
  fieldValueCalls : List String

/-- A validator invocation whose promise has not settled yet: participant id
and the argument captured at invocation time. -/
structure PendingTask where
  tpid : String
  arg : Option String
deriving DecidableEq

/-- Coordinator state from useValidator: the canValidate flag, the errors
record (insertion-ordered, as a JavaScript object), and the subscriber
registry keys. -/
structure CoordState where
  canValidate : Bool
  errorsById : List (String × Option String)
  registry : List String
deriving DecidableEq

/-- The whole system: coordinator, mounted participants, pending validator
promises, and rejections nobody awaited. -/
structure System where
  coord : CoordState
  parts : List Participant
  pending : List PendingTask
  unhandled : List String

/-- Upsert into an insertion-ordered record, as a JavaScript object spread
with a computed key: an existing key keeps its position, a new key is
appended. -/
def upsert (k : String) (v : Option String) : List (String × Option String) → List (String × Option String)
  | [] => [(k, v)]
  | (k', v') :: rest => if k' = k then (k, v) :: rest else (k', v') :: upsert k v rest

/-- Lookup in the errors record. -/
def lookupErr : List (String × Option String) → String → Option (Option String)
  | [], _ => none
  | (k, v) :: rest, pid => if k = pid then some v else lookupErr rest pid

/-- onError from useValidator: upsert the participant message into the
errors record. -/
def onError (c : CoordState) (k : String) (m : Option String) : CoordState :=
  { c with errorsById := upsert k m c.errorsById }

/-- flattenedErrors from useValidator:
canValidate ? Object.values(errors).filter(Boolean) : [].
filter(Boolean) drops undefined entries and falsy strings (only the empty
string among strings). -/
def flattenedErrors (c : CoordState) : List String :=
  if c.canValidate then ((c.errorsById.filterMap Prod.snd).filter (fun m => m != "")) else []

/-- Find the participant registered under an id (first match). -/
def findPart (pid : String) : List Participant → Option Participant
  | [] => none
  | p :: ps => if p.pid = pid then some p else findPart pid ps

/-- Replace the first participant registered under an id. -/
def updatePart (pid : String) (f : Participant → Participant) : List Participant → List Participant
  | [] => []
  | p :: ps => if p.pid = pid then f p :: ps else p :: updatePart pid f ps

/-- setCanValidate of the participant (writes state and ref together). -/
def setFlag (b : Bool) : Participant → Participant :=
  fun q => { q with canValidate := b }

/-- Count one validator invocation. -/
def incCalls : Participant → Participant :=
  fun q => { q with fnCalls := q.fnCalls + 1 }

/-- setError of the participant. -/
def setErr (e : Option String) : Participant → Participant :=
  fun q => { q with error := e }

/-- setValue body on the participant: forward the value to the consumer
setFieldValue callback and write the mirror. -/
def pushValue (v : String) : Participant → Participant :=
  fun q => { q with fieldValueCalls := q.fieldValueCalls ++ [v], currentValue := some v }

/-- setCurrentValue only (used by the useValidationLogic.ts sync effect). -/
def setCur (v : Option String) : Participant → Participant :=
  fun q => { q with currentValue := v }

/-- The validate routine of useValidationLogic, invocation phase. The code
reads canValidateRef.current at invocation: when true it calls the
validator on currentValueRef.current, producing a promise that settles
later (a pending task); when false it synchronously clears the local error
and reports undefined to the coordinator, and the validator is never
called. -/
def invokeValidate (s : System) (pid : String) : System :=
  match findPart pid s.parts with
  | none => s
  | some p =>
    if p.canValidate then
      { s with
          parts := updatePart pid incCalls s.parts,
          pending := s.pending ++ [⟨pid, p.currentValue⟩] }
    else
      { s with
          parts := updatePart pid (setErr none) s.parts,
          coord := onError s.coord pid none }

/-- Settlement of one pending validator promise: the code applies the
awaited result unconditionally (setError and onError); a rejection
propagates out of the async validate routine, whose promise nobody awaits,
so it lands in the unhandled list. -/
def resolveTask (s : System) (t : PendingTask) : System :=
  match findPart t.tpid s.parts with
  | none => s
  | some p =>
    match p.fn t.arg with
    | VResult.ok =>
        { s with
            parts := updatePart t.tpid (setErr none) s.parts,
            coord := onError s.coord t.tpid none }
    | VResult.msg m =>
        { s with
            parts := updatePart t.tpid (setErr (some m)) s.parts,
            coord := onError s.coord t.tpid (some m) }
    | VResult.thrown e =>
        { s with unhandled := s.unhandled ++ [e] }

/-- Scheduler: settle the i-th pending promise. -/
def resolveAt (s : System) (i : Nat) : System :=
  match s.pending.get? i with
  | none => s
  | some t => resolveTask { s with pending := s.pending.eraseIdx i } t

/-- The callback registered by subscribe in useValidationLogic:
setCanValidate(b) (which writes the ref synchronously) followed by
validate(). -/
def broadcast (s : System) (pid : String) (b : Bool) : System :=
  invokeValidate { s with parts := updatePart pid (setFlag b) s.parts } pid

/-- validate from useValidator: invoke every subscriber callback with true
(discarding the returned promises), then set the coordinator flag. The
call returns immediately; nothing is awaited. -/
def validateCall (s : System) : System :=
  let s1 := s.coord.registry.foldl (fun acc pid => broadcast acc pid true) s
  { s1 with coord := { s1.coord with canValidate := true } }

/-- reset from useValidator: invoke every subscriber callback with false,
then clear the flag and the errors record. Nothing is awaited. -/
def resetCall (s : System) : System :=
  let s1 := s.coord.registry.foldl (fun acc pid => broadcast acc pid false) s
  { s1 with coord := { s1.coord with canValidate := false, errorsById := [] } }

/-- setValue from the ref-based useValidationLogic: forward the value to the
consumer callback, write the mirror (state and ref), then void validate(). -/
def setValueOp (s : System) (pid : String) (v : String) : System :=
  match findPart pid s.parts with
  | none => s
  | some _ =>
    invokeValidate { s with parts := updatePart pid (pushValue v) s.parts } pid

/-- The external-value sync effect of the ref-based revision (part_003
lines 76-80): when the external value is defined it calls setValue, which
also forwards the value to the consumer-supplied setFieldValue callback. -/
def externalSyncRef (s : System) (pid : String) (v : Option String) : System :=
  match v with
  | none => s
  | some w => setValueOp s pid w

/-- The external-value sync effect of useValidationLogic.ts (lines 139-143
together with the currentValue effect at 163-172): when the external value
is defined it calls setCurrentValue only, and the currentValue effect then
re-runs validate; the consumer setFieldValue callback is not invoked. -/
def externalSyncTs (s : System) (pid : String) (v : Option String) : System :=
  match v with
  | none => s
  | some w =>
    invokeValidate { s with parts := updatePart pid (setCur (some w)) s.parts } pid

/-- unsubscribe from useValidator: delete the registry key; the errors
record is untouched. -/
def unsubscribeOp (s : System) (pid : String) : System :=
  { s with coord := { s.coord with registry := s.coord.registry.erase pid } }

/-- The gate of ValidateWrapper on the error handed to the render children:
canValidate ? error : undefined. -/
def exposedError (p : Participant) : Option String :=
  if p.canValidate then p.error else none

/-- Scheduler events: user actions, coordinator calls and promise
settlements. -/
inductive Ev where
  | setVal : String → String → Ev
  | validate : Ev
  | reset : Ev
  | resolve : Nat → Ev
  | syncTs : String → String → Ev
  | syncRef : String → String → Ev
  | unsub : String → Ev
deriving DecidableEq

/-- One scheduler step. -/
def step (s : System) : Ev → System
  | Ev.setVal pid v => setValueOp s pid v
  | Ev.validate => validateCall s
  | Ev.reset => resetCall s
  | Ev.resolve i => resolveAt s i
  | Ev.syncTs pid v => externalSyncTs s pid (some v)
  | Ev.syncRef pid v => externalSyncRef s pid (some v)
  | Ev.unsub pid => unsubscribeOp s pid

/-- Run a schedule of events. -/
def run (s : System) : List Ev → System
  | [] => s
  | e :: es => run (step s e) es

/-- A freshly mounted participant: mirror seeded with no external value,
canValidate false, no error. -/
def mkPart (pid : String) (fn : Option String → VResult) : Participant :=
  ⟨pid, fn, none, false, none, 0, []⟩

/-- A session right after mounting: every participant subscribed, no errors
reported, nothing pending. -/
def initSys (cfg : List (String × (Option String → VResult))) : System :=
  { coord := ⟨false, [], cfg.map Prod.fst⟩,
    parts := cfg.map (fun c => mkPart c.1 c.2),
    pending := [],
    unhandled := [] }

/-- A validator that always fails with the message Required. -/
def reqFn : Option String → VResult := fun _ => VResult.msg "Required"

/-- A validator that always throws. -/
def boomFn : Option String → VResult := fun _ => VResult.thrown "boom"

/-- A validator accepting exactly the value ok and failing with bad
otherwise. -/
def raceFn : Option String → VResult := fun v => if v = some "ok" then VResult.ok else VResult.msg "bad"

/-- A validator that fails with the empty string. -/
def emptyFn : Option String → VResult := fun _ => VResult.msg ""

/-- Session with one always-failing participant. -/
def sysC1 : System := initSys [("p1", reqFn)]

/-- Session with one throwing participant. -/
def sysC7 : System := initSys [("p1", boomFn)]

/-- Session with one participant accepting only ok. -/
def sysRace : System := initSys [("p1", raceFn)]

/-- sysRace after validate() and settlement of the initial validation:
participant reporting, error bad, nothing pending. -/
def sysC9 : System := run sysRace [Ev.validate, Ev.resolve 0]

/-- Mid-race state: after validate() settled once, setValue(x) then
setValue(ok) were issued, and the ok validation resolved first; the stale
x validation is still pending. -/
def sC2mid : System :=
  run sysRace [Ev.validate, Ev.resolve 0, Ev.setVal "p1" "x", Ev.setVal "p1" "ok", Ev.resolve 1]

/-- The participant inside sC2mid. -/
def pC2mid : Participant := ⟨"p1", raceFn, some "ok", true, none, 3, ["x", "ok"]⟩

/-- sysC1 after validate() and settlement: an error is populated. -/
def sysC5 : System := run sysC1 [Ev.validate, Ev.resolve 0]

/-- Session with one participant failing with the empty string, after
validate(): its validation is pending. -/
def sysC10 : System := run (initSys [("p1", emptyFn)]) [Ev.validate]

/-- The participant inside sysC10. -/
def pC10 : Participant := ⟨"p1", emptyFn, none, true, none, 1, []⟩

/-- How the code applies an awaited validator outcome to the stored error:
true clears it, a string overwrites it, a rejection leaves it unchanged
(the rejection escapes before setError runs). -/
def applyErr (r : VResult) (old : Option String) : Option String :=
  match r with
  | VResult.ok => none
  | VResult.msg m => some m
  | VResult.thrown _ => old

/-- Participants in a gated session: coordinator flag false and every
participant flag false. Holds until the first validate(). -/
def GatedSys (s : System) : Prop :=
  s.coord.canValidate = false ∧ ∀ p ∈ s.parts, p.canValidate = false

/-- sysC5 after a further setValue whose async validation has not settled:
an error is populated and a validation is in flight. -/
def sysC5pend : System := run sysC5 [Ev.setVal "p1" "x"]

/-- Settle the head pending promise n times. -/
def resolveAllFuel : Nat → System → System
  | 0, s => s
  | n + 1, s => resolveAllFuel n (resolveAt s 0)

/-- Settle every currently pending promise, oldest first. -/
def resolveAll (s : System) : System := resolveAllFuel s.pending.length s

/-- A mounted participant whose validator deterministically fails with the
given message. -/
def failPart (q : String × String) : Participant :=
  ⟨q.1, fun _ => VResult.msg q.2, none, false, none, 0, []⟩

/-- The same participant right after the validate() broadcast reached it:
flag set and one invocation pending. -/
def failPartA (q : String × String) : Participant :=
  ⟨q.1, fun _ => VResult.msg q.2, none, true, none, 1, []⟩

/-- The pending validation created for it by the broadcast. -/
def failTask (q : String × String) : PendingTask := ⟨q.1, none⟩

/-- A session of deterministically failing participants, one per
(id, message) pair. -/
def failSys (ps : List (String × String)) : System :=
  initSys (ps.map (fun q => (q.1, fun _ => VResult.msg q.2)))

theorem findPart_mem {pid : String} {l : List Participant} {p : Participant}
    (h : findPart pid l = some p) : p ∈ l := by
  induction l with
  | nil => simp [findPart] at h
  | cons q l ih =>
    by_cases hq : q.pid = pid
    · simp [findPart, hq] at h
      simp [h]
    · simp [findPart, hq] at h
      exact List.mem_cons_of_mem q (ih h)

theorem findPart_updatePart_self (pid : String) (f : Participant → Participant)
    (hf : ∀ q, (f q).pid = q.pid) (l : List Participant) :
    findPart pid (updatePart pid f l) = (findPart pid l).map f := by
  induction l with
  | nil => rfl
  | cons q l ih =>
    by_cases hq : q.pid = pid
    · simp [updatePart, findPart, hq, hf q]
    · simp [updatePart, findPart, hq, ih]

theorem findPart_updatePart_other (pid pid' : String) (hne : pid ≠ pid')
    (f : Participant → Participant) (hf : ∀ q, (f q).pid = q.pid) (l : List Participant) :
    findPart pid (updatePart pid' f l) = findPart pid l := by
  induction l with
  | nil => rfl
  | cons q l ih =>
    by_cases hq : q.pid = pid'
    · simp [updatePart, findPart, hq, hf q, Ne.symm hne]
    · simp [updatePart, findPart, hq, ih]

theorem mem_updatePart {p : Participant} {pid : String} {f : Participant → Participant}
    {l : List Participant} (h : p ∈ updatePart pid f l) :
    p ∈ l ∨ ∃ q, q ∈ l ∧ p = f q := by
  induction l with
  | nil => simp [updatePart] at h
  | cons q l ih =>
    by_cases hq : q.pid = pid
    · simp [updatePart, hq] at h
      rcases h with h | h
      · exact Or.inr ⟨q, List.mem_cons_self q l, h⟩
      · exact Or.inl (List.mem_cons_of_mem q h)
    · simp [updatePart, hq] at h
      rcases h with h | h
      · exact Or.inl (by simp [h])
      · rcases ih h with h1 | ⟨r, hr, he⟩
        · exact Or.inl (List.mem_cons_of_mem q h1)
        · exact Or.inr ⟨r, List.mem_cons_of_mem q hr, he⟩

theorem resolveTask_error (s : System) (t : PendingTask) (p : Participant)
    (hp : findPart t.tpid s.parts = some p) :
    (findPart t.tpid (resolveTask s t).parts).map (fun q => q.error)
      = some (applyErr (p.fn t.arg) p.error) := by
  cases hr : p.fn t.arg with
  | ok =>
    simp only [resolveTask, hp, hr]
    rw [findPart_updatePart_self t.tpid (setErr none) (fun q => rfl) s.parts, hp]
    simp [setErr, applyErr]
  | msg m =>
    simp only [resolveTask, hp, hr]
    rw [findPart_updatePart_self t.tpid (setErr (some m)) (fun q => rfl) s.parts, hp]
    simp [setErr, applyErr]
  | thrown e =>
    simp only [resolveTask, hp, hr]
    simp [applyErr]

theorem invokeValidate_spec (s : System) (pid : String) (p : Participant)
    (hp : findPart pid s.parts = some p) :
    invokeValidate s pid =
      if p.canValidate then
        { s with
            parts := updatePart pid incCalls s.parts,
            pending := s.pending ++ [⟨pid, p.currentValue⟩] }
      else
        { s with
            parts := updatePart pid (setErr none) s.parts,
            coord := onError s.coord pid none } := by
  unfold invokeValidate
  rw [hp]

theorem setValueOp_spec (s : System) (pid v : String) (p : Participant)
    (hp : findPart pid s.parts = some p) :
    setValueOp s pid v =
      invokeValidate { s with parts := updatePart pid (pushValue v) s.parts } pid := by
  unfold setValueOp
  rw [hp]

/-- Claim C1: with one registered always-failing participant, the whole
synchronous execution of validate() completes (its flag update included,
so control has returned to the caller) while the validation it triggered
is still pending and the aggregated collection is still empty; the
collection only holds the message after the promise settles later.
validate() discards the callback promises, so no promise tied to the call
resolves with the aggregated errors. -/
theorem C1_validate_fire_and_forget :
    (run sysC1 [Ev.validate]).pending = [⟨"p1", none⟩] ∧
    (run sysC1 [Ev.validate]).coord.canValidate = true ∧
    flattenedErrors (run sysC1 [Ev.validate]).coord = [] ∧
    flattenedErrors (run sysC1 [Ev.validate, Ev.resolve 0]).coord = ["Required"] :=
  ⟨rfl, rfl, rfl, rfl⟩

/-- Claim C2 (counterexample): the participant accepts exactly ok. After a
settled validate(), setValue(x) then setValue(ok) are invoked; the ok
validation resolves first and the stale x validation resolves last. The
final error is bad, the result for the older value x, even though the
most recently invoked validation (for ok) had succeeded: the stale result
is applied, refuting last-write-wins by invocation order. -/
theorem C2_stale_result_applied :
    ((findPart "p1" sC2mid.parts).map (fun q => q.error) = some none) ∧
    ((findPart "p1" (run sC2mid [Ev.resolve 0]).parts).map (fun q => q.error)
        = some (some "bad")) ∧
    flattenedErrors (run sC2mid [Ev.resolve 0]).coord = ["bad"] :=
  ⟨rfl, rfl, rfl⟩

/-- Claim C2 (amended): the engine has no staleness guard. Whenever any
pending validation settles, its outcome — computed from the value captured
at its own invocation — is applied to the participant's error
unconditionally, so the final error reflects the last validation to
resolve, not the last one invoked. -/
theorem C2_resolution_order_wins (s : System) (i : Nat) (t : PendingTask) (p : Participant)
    (ht : s.pending.get? i = some t) (hp : findPart t.tpid s.parts = some p) :
    (findPart t.tpid (run s [Ev.resolve i]).parts).map (fun q => q.error)
      = some (applyErr (p.fn t.arg) p.error) := by
  have h1 : run s [Ev.resolve i] = resolveTask { s with pending := s.pending.eraseIdx i } t := by
    show resolveAt s i = _
    unfold resolveAt
    rw [ht]
  rw [h1]
  exact resolveTask_error _ t p hp

/-- Witness for C2_resolution_order_wins at the mid-race state: resolving
the stale pending validation for x overwrites the fresher ok outcome with
bad. -/
theorem C2_resolution_order_wins_witness :
    (sC2mid.pending.get? 0 = some ⟨"p1", some "x"⟩) ∧
    (findPart "p1" sC2mid.parts = some pC2mid) ∧
    ((findPart "p1" (run sC2mid [Ev.resolve 0]).parts).map (fun q => q.error)
        = some (some "bad")) := by
  refine ⟨rfl, rfl, ?_⟩
  exact C2_resolution_order_wins sC2mid 0 ⟨"p1", some "x"⟩ pC2mid rfl rfl

/-- Claim C3 (counterexample): before validate() has ever run (canReport
false), a setValue call does not execute the validator at all: the
invocation count stays zero and nothing becomes pending; the participant
merely clears its error and reports undefined. This refutes the claim that
the validator runs unconditionally with only the exposed error gated. -/
theorem C3_gated_skips_validator :
    ((findPart "p1" (run sysC1 [Ev.setVal "p1" "x"]).parts).map (fun q => q.fnCalls) = some 0) ∧
    (run sysC1 [Ev.setVal "p1" "x"]).pending = [] ∧
    ((findPart "p1" (run sysC1 [Ev.setVal "p1" "x"]).parts).map (fun q => q.error) = some none) ∧
    (run sysC1 [Ev.setVal "p1" "x"]).coord.errorsById = [("p1", none)] :=
  ⟨rfl, rfl, rfl, rfl⟩

/-- Claim C3 (amended): a value change always re-runs the validate routine,
but the validator function itself executes exactly when canReport is true:
the invocation count grows by one and a validation becomes pending if and
only if the flag is set; when the flag is false the participant instead
clears its local error and reports undefined to the coordinator. -/
theorem C3_value_change_gated (s : System) (pid v : String) (p : Participant)
    (hp : findPart pid s.parts = some p) :
    ((findPart pid (run s [Ev.setVal pid v]).parts).map (fun q => q.fnCalls)
        = some (p.fnCalls + (if p.canValidate then 1 else 0))) ∧
    ((run s [Ev.setVal pid v]).pending
        = if p.canValidate then s.pending ++ [⟨pid, some v⟩] else s.pending) ∧
    (p.canValidate = false →
      ((findPart pid (run s [Ev.setVal pid v]).parts).map (fun q => q.error) = some none) ∧
      (run s [Ev.setVal pid v]).coord = onError s.coord pid none) := by
  have hf1 : findPart pid (updatePart pid (pushValue v) s.parts) = some (pushValue v p) := by
    rw [findPart_updatePart_self pid (pushValue v) (fun q => rfl) s.parts, hp]
    rfl
  have hrun : run s [Ev.setVal pid v]
      = invokeValidate { s with parts := updatePart pid (pushValue v) s.parts } pid :=
    setValueOp_spec s pid v p hp
  rw [hrun, invokeValidate_spec _ pid _ hf1]
  have hcv2 : (pushValue v p).canValidate = p.canValidate := rfl
  cases hcv : p.canValidate with
  | false =>
    rw [hcv] at hcv2
    simp only [hcv2, hcv, Bool.false_eq_true, if_false]
    refine ⟨?_, trivial, ?_⟩
    · rw [findPart_updatePart_self pid (setErr none) (fun q => rfl), hf1]
      simp [setErr, pushValue]
    · intro _
      refine ⟨?_, trivial⟩
      rw [findPart_updatePart_self pid (setErr none) (fun q => rfl), hf1]
      simp [setErr]
  | true =>
    rw [hcv] at hcv2
    simp only [hcv2, hcv, if_true]
    refine ⟨?_, rfl, ?_⟩
    · rw [findPart_updatePart_self pid incCalls (fun q => rfl), hf1]
      simp [incCalls, pushValue]
    · intro hfalse
      cases hfalse

/-- Witness for C3_value_change_gated at the freshly mounted session: the
gated participant ends with zero validator invocations after setValue. -/
theorem C3_value_change_gated_witness :
    (findPart "p1" sysC1.parts = some (mkPart "p1" reqFn)) ∧
    ((findPart "p1" (run sysC1 [Ev.setVal "p1" "x"]).parts).map (fun q => q.fnCalls) = some 0) := by
  refine ⟨rfl, ?_⟩
  have h := (C3_value_change_gated sysC1 "p1" "x" (mkPart "p1" reqFn) rfl).1
  simpa [mkPart] using h

theorem findPart_all_canValidate_false {l : List Participant} {pid : String} {p : Participant}
    (h : ∀ q ∈ l, q.canValidate = false) (hp : findPart pid l = some p) :
    p.canValidate = false :=
  h p (findPart_mem hp)

theorem all_canValidate_false_updatePart {l : List Participant} {pid : String}
    {f : Participant → Participant}
    (hf : ∀ q, q.canValidate = false → (f q).canValidate = false)
    (h : ∀ q ∈ l, q.canValidate = false) :
    ∀ q ∈ updatePart pid f l, q.canValidate = false := by
  intro q hq
  rcases mem_updatePart hq with h1 | ⟨r, hr, he⟩
  · exact h q h1
  · rw [he]
    exact hf r (h r hr)

theorem gated_invokeValidate {s : System} (pid : String) (hs : GatedSys s) :
    GatedSys (invokeValidate s pid) := by
  obtain ⟨hc, hp⟩ := hs
  unfold invokeValidate
  cases hfind : findPart pid s.parts with
  | none => exact ⟨hc, hp⟩
  | some p =>
    have hpc : p.canValidate = false := findPart_all_canValidate_false hp hfind
    simp only [hpc, Bool.false_eq_true, if_false]
    refine ⟨hc, ?_⟩
    exact all_canValidate_false_updatePart (fun q hq => hq) hp

theorem gated_broadcast_false {s : System} (pid : String) (hs : GatedSys s) :
    GatedSys (broadcast s pid false) := by
  obtain ⟨hc, hp⟩ := hs
  apply gated_invokeValidate
  exact ⟨hc, all_canValidate_false_updatePart (fun q _ => rfl) hp⟩

theorem gated_foldl_broadcast_false (l : List String) :
    ∀ s : System, GatedSys s →
      GatedSys (l.foldl (fun a k => broadcast a k false) s) := by
  induction l with
  | nil => intro s hs; exact hs
  | cons k l ih =>
    intro s hs
    rw [List.foldl_cons]
    exact ih _ (gated_broadcast_false k hs)

theorem gated_resolveTask {s : System} (t : PendingTask) (hs : GatedSys s) :
    GatedSys (resolveTask s t) := by
  obtain ⟨hc, hp⟩ := hs
  cases hfind : findPart t.tpid s.parts with
  | none =>
    simp only [resolveTask, hfind]
    exact ⟨hc, hp⟩
  | some p =>
    cases hr : p.fn t.arg with
    | ok =>
      simp only [resolveTask, hfind, hr]
      exact ⟨hc, all_canValidate_false_updatePart (fun q hq => hq) hp⟩
    | msg m =>
      simp only [resolveTask, hfind, hr]
      exact ⟨hc, all_canValidate_false_updatePart (fun q hq => hq) hp⟩
    | thrown e =>
      simp only [resolveTask, hfind, hr]
      exact ⟨hc, hp⟩

theorem gated_step {s : System} (e : Ev) (he : e ≠ Ev.validate) (hs : GatedSys s) :
    GatedSys (step s e) := by
  obtain ⟨hc, hp⟩ := hs
  cases e with
  | setVal pid v =>
    show GatedSys (setValueOp s pid v)
    unfold setValueOp
    cases hfind : findPart pid s.parts with
    | none => exact ⟨hc, hp⟩
    | some p =>
      apply gated_invokeValidate
      exact ⟨hc, all_canValidate_false_updatePart (fun q hq => hq) hp⟩
  | validate => exact absurd rfl he
  | reset =>
    show GatedSys (resetCall s)
    unfold resetCall
    have h1 := gated_foldl_broadcast_false s.coord.registry s ⟨hc, hp⟩
    exact ⟨rfl, h1.2⟩
  | resolve i =>
    show GatedSys (resolveAt s i)
    unfold resolveAt
    cases s.pending.get? i with
    | none => exact ⟨hc, hp⟩
    | some t => exact gated_resolveTask t ⟨hc, hp⟩
  | syncTs pid v =>
    show GatedSys (externalSyncTs s pid (some v))
    unfold externalSyncTs
    apply gated_invokeValidate
    exact ⟨hc, all_canValidate_false_updatePart (fun q hq => hq) hp⟩
  | syncRef pid v =>
    show GatedSys (externalSyncRef s pid (some v))
    unfold externalSyncRef
    show GatedSys (setValueOp s pid v)
    unfold setValueOp
    cases hfind : findPart pid s.parts with
    | none => exact ⟨hc, hp⟩
    | some p =>
      apply gated_invokeValidate
      exact ⟨hc, all_canValidate_false_updatePart (fun q hq => hq) hp⟩
  | unsub pid => exact ⟨hc, hp⟩

theorem gated_run {s : System} (evs : List Ev) (h : Ev.validate ∉ evs) (hs : GatedSys s) :
    GatedSys (run s evs) := by
  induction evs generalizing s with
  | nil => exact hs
  | cons e evs ih =>
    have he : e ≠ Ev.validate := fun hcontra => h (hcontra ▸ List.mem_cons_self e evs)
    have htail : Ev.validate ∉ evs := fun hcontra => h (List.mem_cons_of_mem e hcontra)
    exact ih htail (gated_step e he hs)

/-- Claim C4: whatever the participants and their validators, and whatever
happens before the first validate() call (value changes, external syncs,
settlements, resets, unmounts), the aggregated errors collection stays
empty and every participant's externally exposed error stays undefined. -/
theorem C4_no_errors_before_validate
    (cfg : List (String × (Option String → VResult))) (evs : List Ev)
    (h : Ev.validate ∉ evs) :
    flattenedErrors (run (initSys cfg) evs).coord = [] ∧
    ∀ p ∈ (run (initSys cfg) evs).parts, exposedError p = none := by
  have h0 : GatedSys (initSys cfg) := by
    refine ⟨rfl, ?_⟩
    intro p hp
    simp only [initSys, List.mem_map] at hp
    obtain ⟨c, _, rfl⟩ := hp
    rfl
  have h1 := gated_run evs h h0
  constructor
  · unfold flattenedErrors
    rw [h1.1]
    rfl
  · intro p hp
    unfold exposedError
    rw [h1.2 p hp]
    rfl

/-- Witness for C4_no_errors_before_validate: an always-failing participant,
a value change, a reset and a settlement attempt before any validate. -/
theorem C4_no_errors_before_validate_witness :
    (Ev.validate ∉ [Ev.setVal "p1" "x", Ev.reset, Ev.resolve 0]) ∧
    flattenedErrors (run (initSys [("p1", reqFn)]) [Ev.setVal "p1" "x", Ev.reset, Ev.resolve 0]).coord = [] := by
  refine ⟨by decide, ?_⟩
  exact (C4_no_errors_before_validate [("p1", reqFn)] [Ev.setVal "p1" "x", Ev.reset, Ev.resolve 0] (by decide)).1

theorem broadcast_false_pending (s : System) (k : String) :
    (broadcast s k false).pending = s.pending := by
  have hff : findPart k (updatePart k (setFlag false) s.parts)
      = (findPart k s.parts).map (setFlag false) :=
    findPart_updatePart_self k (setFlag false) (fun q => rfl) s.parts
  show (invokeValidate { s with parts := updatePart k (setFlag false) s.parts } k).pending = s.pending
  cases hfind : findPart k s.parts with
  | none =>
    simp only [invokeValidate, hff, hfind, Option.map_none']
  | some p =>
    simp only [invokeValidate, hff, hfind, Option.map_some']
    simp [setFlag]

theorem foldl_broadcast_false_pending (l : List String) :
    ∀ s : System, (l.foldl (fun a k => broadcast a k false) s).pending = s.pending := by
  induction l with
  | nil => intro s; rfl
  | cons k l ih =>
    intro s
    rw [List.foldl_cons, ih, broadcast_false_pending]

/-- Claim C5: from any state in which validate() has populated the
aggregated errors, reset() synchronously empties the collection and
clears canReport, and the in-flight validations are left exactly as they
were: nothing is awaited. -/
theorem C5_reset_clears_sync (s : System) (_hpop : flattenedErrors s.coord ≠ []) :
    flattenedErrors (run s [Ev.reset]).coord = [] ∧
    (run s [Ev.reset]).coord.canValidate = false ∧
    (run s [Ev.reset]).pending = s.pending := by
  refine ⟨rfl, rfl, ?_⟩
  show (resetCall s).pending = s.pending
  unfold resetCall
  exact foldl_broadcast_false_pending s.coord.registry s

/-- Witness for C5_reset_clears_sync at a state with a populated error and a
validation still pending. -/
theorem C5_reset_clears_sync_witness :
    (flattenedErrors sysC5pend.coord ≠ []) ∧
    flattenedErrors (run sysC5pend [Ev.reset]).coord = [] ∧
    (run sysC5pend [Ev.reset]).pending = [⟨"p1", some "x"⟩] := by
  have h := C5_reset_clears_sync sysC5pend (by decide)
  exact ⟨by decide, h.1, h.2.2⟩

/-- Claim C7: a participant validator that rejects never reaches the caller
of validate(): the broadcast has already returned before settlement (no
aggregate promise exists to reject), and when the rejection settles it
becomes an unhandled rejection; the coordinator neither catches it nor
converts it into an error message — the errors record stays empty. -/
theorem C7_rejection_unhandled :
    (run sysC7 [Ev.validate]).pending = [⟨"p1", none⟩] ∧
    (run sysC7 [Ev.validate]).unhandled = [] ∧
    (run sysC7 [Ev.validate, Ev.resolve 0]).unhandled = ["boom"] ∧
    (run sysC7 [Ev.validate, Ev.resolve 0]).coord.errorsById = [] ∧
    flattenedErrors (run sysC7 [Ev.validate, Ev.resolve 0]).coord = [] :=
  ⟨rfl, rfl, rfl, rfl, rfl⟩

theorem lookupErr_mem {e : List (String × Option String)} {pid : String} {v : Option String}
    (h : lookupErr e pid = some v) : (pid, v) ∈ e := by
  induction e with
  | nil => simp [lookupErr] at h
  | cons q e ih =>
    obtain ⟨k1, v1⟩ := q
    by_cases hk : k1 = pid
    · subst hk
      simp [lookupErr] at h
      subst h
      exact List.mem_cons_self _ _
    · simp [lookupErr, hk] at h
      exact List.mem_cons_of_mem _ (ih h)

theorem lookupErr_upsert_self (e : List (String × Option String)) (k : String) (v : Option String) :
    lookupErr (upsert k v e) k = some v := by
  induction e with
  | nil => simp [upsert, lookupErr]
  | cons q e ih =>
    obtain ⟨k1, v1⟩ := q
    by_cases hk : k1 = k
    · simp [upsert, lookupErr, hk]
    · simp [upsert, lookupErr, hk, ih]

/-- Claim C8: unsubscribing a participant removes only its registry entry;
its reported error entry is untouched and keeps contributing to the
aggregated collection. -/
theorem C8_unsubscribe_keeps_error (s : System) (pid m : String)
    (hm : lookupErr s.coord.errorsById pid = some (some m))
    (hv : s.coord.canValidate = true) (hne : m ≠ "") :
    ((run s [Ev.unsub pid]).coord.errorsById = s.coord.errorsById) ∧
    ((run s [Ev.unsub pid]).coord.registry = s.coord.registry.erase pid) ∧
    ((run s [Ev.unsub pid]).parts = s.parts) ∧
    ((run s [Ev.unsub pid]).pending = s.pending) ∧
    (flattenedErrors (run s [Ev.unsub pid]).coord = flattenedErrors s.coord) ∧
    (m ∈ flattenedErrors (run s [Ev.unsub pid]).coord) := by
  have hflat : flattenedErrors (run s [Ev.unsub pid]).coord = flattenedErrors s.coord := rfl
  refine ⟨rfl, rfl, rfl, rfl, hflat, ?_⟩
  rw [hflat]
  unfold flattenedErrors
  rw [hv, if_pos rfl]
  apply List.mem_filter.mpr
  refine ⟨?_, ?_⟩
  · exact List.mem_filterMap.mpr ⟨(pid, some m), lookupErr_mem hm, rfl⟩
  · simpa using hne

/-- Witness for C8_unsubscribe_keeps_error: after validate() settled the
Required error, unmounting the participant leaves Required aggregated. -/
theorem C8_unsubscribe_keeps_error_witness :
    (lookupErr sysC5.coord.errorsById "p1" = some (some "Required")) ∧
    (sysC5.coord.canValidate = true) ∧
    ("Required" ∈ flattenedErrors (run sysC5 [Ev.unsub "p1"]).coord) := by
  refine ⟨rfl, rfl, ?_⟩
  exact (C8_unsubscribe_keeps_error sysC5 "p1" "Required" rfl rfl (by decide)).2.2.2.2.2

/-- Claim C9 (code_bug evaluation): an external-value change handled by the
ref-based revision (part_003) goes through setValue and therefore invokes
the consumer-supplied setFieldValue callback — a feedback loop — while the
useValidationLogic.ts effect performs the same mirror re-sync and
revalidation without ever invoking that callback. -/
theorem C9_external_sync_feedback :
    ((findPart "p1" (run sysC9 [Ev.syncRef "p1" "v"]).parts).map (fun q => q.fieldValueCalls)
        = some ["v"]) ∧
    ((findPart "p1" (run sysC9 [Ev.syncRef "p1" "v"]).parts).map (fun q => q.currentValue)
        = some (some "v")) ∧
    ((run sysC9 [Ev.syncRef "p1" "v"]).pending = [⟨"p1", some "v"⟩]) ∧
    ((findPart "p1" (run sysC9 [Ev.syncTs "p1" "v"]).parts).map (fun q => q.fieldValueCalls)
        = some []) ∧
    ((findPart "p1" (run sysC9 [Ev.syncTs "p1" "v"]).parts).map (fun q => q.currentValue)
        = some (some "v")) ∧
    ((run sysC9 [Ev.syncTs "p1" "v"]).pending = [⟨"p1", some "v"⟩]) :=
  ⟨rfl, rfl, rfl, rfl, rfl, rfl⟩

theorem empty_not_in_flattened (c : CoordState) : "" ∉ flattenedErrors c := by
  intro hmem
  unfold flattenedErrors at hmem
  by_cases h : c.canValidate = true
  · rw [if_pos h] at hmem
    have h2 := List.mem_filter.mp hmem
    simp at h2
  · rw [if_neg h] at hmem
    simp at hmem

theorem resolveTask_coord_msg (s : System) (t : PendingTask) (p : Participant) (m : String)
    (hp : findPart t.tpid s.parts = some p) (hr : p.fn t.arg = VResult.msg m) :
    (resolveTask s t).coord = onError s.coord t.tpid (some m) := by
  simp only [resolveTask, hp, hr]

/-- Claim C10: when a validator resolves to the empty string, the code
treats it as a non-valid outcome: the participant local error becomes the
empty string and the coordinator record stores it; the aggregated
collection nevertheless excludes it, because the aggregation filters every
falsy value, not only undefined. -/
theorem C10_empty_string_filtered (s : System) (i : Nat) (t : PendingTask) (p : Participant)
    (ht : s.pending.get? i = some t) (hp : findPart t.tpid s.parts = some p)
    (hr : p.fn t.arg = VResult.msg "") :
    ((findPart t.tpid (run s [Ev.resolve i]).parts).map (fun q => q.error) = some (some "")) ∧
    (lookupErr (run s [Ev.resolve i]).coord.errorsById t.tpid = some (some "")) ∧
    ("" ∉ flattenedErrors (run s [Ev.resolve i]).coord) := by
  have h1 : run s [Ev.resolve i] = resolveTask { s with pending := s.pending.eraseIdx i } t := by
    show resolveAt s i = _
    unfold resolveAt
    rw [ht]
  rw [h1]
  refine ⟨?_, ?_, empty_not_in_flattened _⟩
  · have h2 := resolveTask_error { s with pending := s.pending.eraseIdx i } t p hp
    rw [h2, hr]
    rfl
  · rw [resolveTask_coord_msg { s with pending := s.pending.eraseIdx i } t p "" hp hr]
    show lookupErr (upsert t.tpid (some "") s.coord.errorsById) t.tpid = some (some "")
    exact lookupErr_upsert_self _ _ _

/-- Witness for C10_empty_string_filtered: the participant whose validator
returns the empty string, after validate() and settlement. -/
theorem C10_empty_string_filtered_witness :
    (sysC10.pending.get? 0 = some ⟨"p1", none⟩) ∧
    ((findPart "p1" (run sysC10 [Ev.resolve 0]).parts).map (fun q => q.error) = some (some "")) ∧
    ("" ∉ flattenedErrors (run sysC10 [Ev.resolve 0]).coord) := by
  have h := C10_empty_string_filtered sysC10 0 ⟨"p1", none⟩ pC10 rfl rfl rfl
  exact ⟨rfl, h.1, h.2.2⟩

theorem findPart_cons_self (pid : String) (p : Participant) (l : List Participant)
    (h : p.pid = pid) : findPart pid (p :: l) = some p := by
  simp [findPart, h]

theorem updatePart_cons_self (pid : String) (f : Participant → Participant)
    (p : Participant) (l : List Participant) (h : p.pid = pid) :
    updatePart pid f (p :: l) = f p :: l := by
  simp [updatePart, h]

theorem findPart_append_left_none (pid : String) (l1 l2 : List Participant)
    (h : ∀ p ∈ l1, p.pid ≠ pid) :
    findPart pid (l1 ++ l2) = findPart pid l2 := by
  induction l1 with
  | nil => rfl
  | cons q l ih =>
    have hq : q.pid ≠ pid := h q (List.mem_cons_self q l)
    simp only [List.cons_append, findPart, hq, if_false]
    exact ih (fun p hp => h p (List.mem_cons_of_mem q hp))

theorem updatePart_append_left_none (pid : String) (f : Participant → Participant)
    (l1 l2 : List Participant) (h : ∀ p ∈ l1, p.pid ≠ pid) :
    updatePart pid f (l1 ++ l2) = l1 ++ updatePart pid f l2 := by
  induction l1 with
  | nil => rfl
  | cons q l ih =>
    have hq : q.pid ≠ pid := h q (List.mem_cons_self q l)
    show updatePart pid f (q :: (l ++ l2)) = q :: (l ++ updatePart pid f l2)
    simp only [updatePart]
    rw [if_neg hq, ih (fun p hp => h p (List.mem_cons_of_mem q hp))]

theorem broadcast_true_fold (rest : List (String × String)) :
    ∀ (done : List Participant) (co : CoordState) (pend : List PendingTask) (un : List String),
      (∀ p ∈ done, ∀ q ∈ rest, p.pid ≠ q.1) →
      (rest.map Prod.fst).Nodup →
      ((rest.map Prod.fst).foldl (fun a k => broadcast a k true)
          ⟨co, done ++ rest.map failPart, pend, un⟩)
        = ⟨co, done ++ rest.map failPartA, pend ++ rest.map failTask, un⟩ := by
  induction rest with
  | nil =>
    intro done co pend un _ _
    simp
  | cons q rs ih =>
    intro done co pend un hdone hnd
    have hq1 : ∀ p ∈ done, p.pid ≠ q.1 := fun p hp => hdone p hp q (List.mem_cons_self q rs)
    rw [List.map_cons] at hnd
    have hnd1 : q.1 ∉ rs.map Prod.fst := (List.nodup_cons.mp hnd).1
    have hnd2 : (rs.map Prod.fst).Nodup := (List.nodup_cons.mp hnd).2
    have hfind : findPart q.1 (done ++ setFlag true (failPart q) :: rs.map failPart)
        = some (setFlag true (failPart q)) := by
      rw [findPart_append_left_none q.1 done _ hq1]
      exact findPart_cons_self q.1 _ _ rfl
    have hstep : broadcast (⟨co, done ++ failPart q :: rs.map failPart, pend, un⟩ : System) q.1 true
        = ⟨co, (done ++ [failPartA q]) ++ rs.map failPart, pend ++ [failTask q], un⟩ := by
      show invokeValidate
          { coord := co,
            parts := updatePart q.1 (setFlag true) (done ++ failPart q :: rs.map failPart),
            pending := pend, unhandled := un } q.1 = _
      rw [updatePart_append_left_none q.1 (setFlag true) done _ hq1,
        updatePart_cons_self q.1 (setFlag true) (failPart q) _ rfl]
      rw [invokeValidate_spec _ q.1 (setFlag true (failPart q)) hfind]
      rw [if_pos (show (setFlag true (failPart q)).canValidate = true from rfl)]
      simp only
      rw [updatePart_append_left_none q.1 incCalls done _ hq1,
        updatePart_cons_self q.1 incCalls (setFlag true (failPart q)) _ rfl]
      simp [failPart, failPartA, failTask, setFlag, incCalls, List.append_assoc]
    have hdone' : ∀ p ∈ done ++ [failPartA q], ∀ r ∈ rs, p.pid ≠ r.1 := by
      intro p hp r hr
      rcases List.mem_append.mp hp with h1 | h1
      · exact hdone p h1 r (List.mem_cons_of_mem q hr)
      · have hpq : p = failPartA q := by simpa using h1
        rw [hpq]
        show q.1 ≠ r.1
        intro hcontra
        apply hnd1
        rw [hcontra]
        exact List.mem_map_of_mem Prod.fst hr
    simp only [List.map_cons, List.foldl_cons]
    rw [hstep, ih (done ++ [failPartA q]) co (pend ++ [failTask q]) un hdone' hnd2]
    simp [List.append_assoc]

theorem validateCall_failSys (ps : List (String × String))
    (hnd : (ps.map Prod.fst).Nodup) :
    run (failSys ps) [Ev.validate]
      = ⟨⟨true, [], ps.map Prod.fst⟩, ps.map failPartA, ps.map failTask, []⟩ := by
  have hsys : failSys ps
      = (⟨⟨false, [], ps.map Prod.fst⟩, ps.map failPart, [], []⟩ : System) := by
    unfold failSys initSys
    rw [List.map_map, List.map_map]
    rfl
  have hfold := broadcast_true_fold ps [] ⟨false, [], ps.map Prod.fst⟩ [] []
    (fun p hp => absurd hp (List.not_mem_nil p)) hnd
  simp only [List.nil_append] at hfold
  show validateCall (failSys ps) = _
  rw [hsys]
  unfold validateCall
  simp only
  rw [hfold]

theorem findPart_map_failPartA (ps : List (String × String))
    (hnd : (ps.map Prod.fst).Nodup) :
    ∀ q ∈ ps, findPart q.1 (ps.map failPartA) = some (failPartA q) := by
  induction ps with
  | nil => intro q hq; cases hq
  | cons r rs ih =>
    rw [List.map_cons] at hnd
    intro q hq
    rcases List.mem_cons.mp hq with h1 | h1
    · subst h1
      exact findPart_cons_self q.1 (failPartA q) _ rfl
    · have hr1 : r.1 ≠ q.1 := by
        intro hcontra
        apply (List.nodup_cons.mp hnd).1
        rw [hcontra]
        exact List.mem_map_of_mem Prod.fst h1
      show findPart q.1 (failPartA r :: rs.map failPartA) = some (failPartA q)
      simp only [findPart]
      rw [if_neg (show ¬((failPartA r).pid = q.1) from hr1)]
      exact ih (List.nodup_cons.mp hnd).2 q h1

theorem resolveAll_msgs (tasks : List (String × String)) :
    ∀ s : System,
      s.pending = tasks.map failTask →
      (∀ q ∈ tasks, ∃ p, findPart q.1 s.parts = some p ∧ p.fn = fun _ => VResult.msg q.2) →
      (tasks.map Prod.fst).Nodup →
      (resolveAllFuel tasks.length s).coord
        = ⟨s.coord.canValidate,
           tasks.foldl (fun e q => upsert q.1 (some q.2) e) s.coord.errorsById,
           s.coord.registry⟩ := by
  induction tasks with
  | nil =>
    intro s hpend hfind hnd
    rfl
  | cons q rs ih =>
    intro s hpend hfind hnd
    rw [List.map_cons] at hnd
    obtain ⟨p, hfp, hfn⟩ := hfind q (List.mem_cons_self q rs)
    have hres : resolveAt s 0
        = { s with
              parts := updatePart q.1 (setErr (some q.2)) s.parts,
              pending := rs.map failTask,
              coord := onError s.coord q.1 (some q.2) } := by
      unfold resolveAt
      rw [hpend]
      simp only [List.map_cons, List.get?_cons_zero, List.eraseIdx_cons_zero]
      simp only [resolveTask, failTask]
      simp only [hfp, hfn]
    have hs2pend : ({ s with
          parts := updatePart q.1 (setErr (some q.2)) s.parts,
          pending := rs.map failTask,
          coord := onError s.coord q.1 (some q.2) } : System).pending = rs.map failTask := rfl
    have hs2find : ∀ r ∈ rs, ∃ p2, findPart r.1
          (updatePart q.1 (setErr (some q.2)) s.parts) = some p2
          ∧ p2.fn = fun _ => VResult.msg r.2 := by
      intro r hr
      obtain ⟨p2, hfp2, hfn2⟩ := hfind r (List.mem_cons_of_mem q hr)
      refine ⟨p2, ?_, hfn2⟩
      have hne : r.1 ≠ q.1 := by
        intro hcontra
        apply (List.nodup_cons.mp hnd).1
        rw [← hcontra]
        exact List.mem_map_of_mem Prod.fst hr
      rw [findPart_updatePart_other r.1 q.1 hne (setErr (some q.2)) (fun x => rfl) s.parts]
      exact hfp2
    have hih := ih _ hs2pend hs2find (List.nodup_cons.mp hnd).2
    show (resolveAllFuel (rs.length + 1) s).coord = _
    have hstep : resolveAllFuel (rs.length + 1) s = resolveAllFuel rs.length (resolveAt s 0) := rfl
    rw [hstep, hres, hih]
    simp [onError, List.foldl_cons]

theorem upsert_fresh_append (e : List (String × Option String)) (k : String) (v : Option String)
    (h : k ∉ e.map Prod.fst) : upsert k v e = e ++ [(k, v)] := by
  induction e with
  | nil => rfl
  | cons q e ih =>
    obtain ⟨k1, v1⟩ := q
    simp only [List.map_cons, List.mem_cons, not_or] at h
    have hk : k1 ≠ k := fun hcontra => h.1 hcontra.symm
    show upsert k v ((k1, v1) :: e) = (k1, v1) :: (e ++ [(k, v)])
    simp only [upsert]
    rw [if_neg hk, ih h.2]

theorem foldl_upsert_fresh (tasks : List (String × String)) :
    ∀ e : List (String × Option String),
      (∀ q ∈ tasks, q.1 ∉ e.map Prod.fst) →
      (tasks.map Prod.fst).Nodup →
      tasks.foldl (fun acc q => upsert q.1 (some q.2) acc) e
        = e ++ tasks.map (fun q => (q.1, some q.2)) := by
  induction tasks with
  | nil =>
    intro e _ _
    simp
  | cons q rs ih =>
    intro e hfresh hnd
    rw [List.map_cons] at hnd
    rw [List.foldl_cons, upsert_fresh_append e q.1 (some q.2) (hfresh q (List.mem_cons_self q rs))]
    have hfresh2 : ∀ r ∈ rs, r.1 ∉ (e ++ [(q.1, some q.2)]).map Prod.fst := by
      intro r hr
      rw [List.map_append]
      intro hmem
      rcases List.mem_append.mp hmem with h1 | h1
      · exact hfresh r (List.mem_cons_of_mem q hr) h1
      · have hr1 : r.1 = q.1 := by simpa using h1
        apply (List.nodup_cons.mp hnd).1
        rw [← hr1]
        exact List.mem_map_of_mem Prod.fst hr
    rw [ih (e ++ [(q.1, some q.2)]) hfresh2 (List.nodup_cons.mp hnd).2]
    simp [List.append_assoc]

theorem flattened_msgs_list (l : List (String × String)) (h : ∀ q ∈ l, q.2 ≠ "") :
    ((l.map (fun q => (q.1, some q.2))).filterMap Prod.snd).filter (fun m => m != "")
      = l.map Prod.snd := by
  induction l with
  | nil => rfl
  | cons q rs ih =>
    have htail := ih (fun r hr => h r (List.mem_cons_of_mem q hr))
    have hq : (q.2 != "") = true := by
      simpa using h q (List.mem_cons_self q rs)
    show List.filter (fun m => m != "")
        (List.filterMap Prod.snd ((q.1, some q.2) :: rs.map (fun r => (r.1, some r.2))))
      = q.2 :: rs.map Prod.snd
    have hcs : Prod.snd ((q.1, some q.2) : String × Option String) = some q.2 := rfl
    rw [List.filterMap_cons_some hcs]
    rw [← htail, List.filter_cons]
    simp [hq]

/-- Claim C6: for any list of participants with deterministically failing
validators (distinct ids, non-empty messages), once the validate()
broadcast and every validation it triggered have settled, the aggregated
collection is exactly the participant messages in registration order:
length N, each message present, duplicates preserved, no valid entries. -/
theorem C6_aggregation_counts (ps : List (String × String))
    (hids : (ps.map Prod.fst).Nodup) (hmsg : ∀ q ∈ ps, q.2 ≠ "") :
    flattenedErrors (resolveAll (run (failSys ps) [Ev.validate])).coord = ps.map Prod.snd ∧
    (flattenedErrors (resolveAll (run (failSys ps) [Ev.validate])).coord).length = ps.length := by
  have hA := validateCall_failSys ps hids
  rw [hA]
  have hfind := findPart_map_failPartA ps hids
  have hB := resolveAll_msgs ps
      (⟨⟨true, [], ps.map Prod.fst⟩, ps.map failPartA, ps.map failTask, []⟩ : System)
      rfl
      (fun q hq => ⟨failPartA q, hfind q hq, rfl⟩)
      hids
  have hlen : (⟨⟨true, [], ps.map Prod.fst⟩, ps.map failPartA, ps.map failTask, []⟩ : System).pending.length
      = ps.length := List.length_map ps failTask
  unfold resolveAll
  rw [hlen, hB]
  rw [foldl_upsert_fresh ps [] (fun q _ => List.not_mem_nil q.1) hids]
  have hflat : flattenedErrors
        ⟨true, [] ++ ps.map (fun q => (q.1, some q.2)), ps.map Prod.fst⟩
      = ps.map Prod.snd := by
    rw [List.nil_append]
    unfold flattenedErrors
    rw [if_pos rfl]
    exact flattened_msgs_list ps hmsg
  refine ⟨hflat, ?_⟩
  rw [hflat, List.length_map]

/-- Witness for C6_aggregation_counts: two participants both failing with
Required yield exactly two Required entries. -/
theorem C6_aggregation_counts_witness :
    (([("a", "Required"), ("b", "Required")].map Prod.fst).Nodup) ∧
    (flattenedErrors (resolveAll (run (failSys [("a", "Required"), ("b", "Required")])
        [Ev.validate])).coord = ["Required", "Required"]) := by
  refine ⟨by decide, ?_⟩
  exact (C6_aggregation_counts [("a", "Required"), ("b", "Required")]
    (by decide) (by decide)).1
